import Mathlib

/-!
# GW2Radial: wheel element layout and hover fade

A shallow embedding of `src/GW2Radial/src/WheelElement.cpp`
(`WheelElement::DrawPriority`, `WheelElement::Draw`, `WheelElement::hoverFadeIn`).

Conventions of the embedding.

* `float` values are elements of a linear ordered field `α` (exact arithmetic, no
  rounding); the theorems about angles are stated at `α = ℝ` with `Real.sin`, `Real.cos`
  and `Real.pi` passed for `sin`, `cos` and `M_PI`.
* `mstime` is declared in a header that is not part of the sources at hand.  Its integer
  arithmetic is therefore a parameter `w : Option Nat`: `none` is a type on which sums and
  differences are exact (a signed type far from its bounds), `some b` is an unsigned
  integer of `b` bits, on which they are reduced modulo `2 ^ b`.
* `Lerp` and `SmoothStep` (from `Utility.h`, also not at hand) are parameters of `Draw`.
* The value of `ImGui::Button` is an input of `DrawPriority`.
-/

namespace GW2Radial

/-! ## Data model -/

/-- A four-component vector of floats, as `fVector4`. -/
structure fVector4 (α : Type) where
  x : α
  y : α
  z : α
  w : α

/-- A two-component vector of floats, as `fVector2`. -/
structure fVector2 (α : Type) where
  x : α
  y : α

/-- The fields of `WheelElement` read by `Draw` and `hoverFadeIn`.  `self` is the identity
of the object (the value of the `this` pointer). -/
structure WheelElement (α : Type) where
  self : Nat
  currentHoverTime_ : Int
  currentExitTime_ : Int
  aspectRatio_ : α

/-- The fields of `Wheel` read by `hoverFadeIn`: the trigger time, the value of
`displayDelayOption_`, and the identity of the hovered element (`none` for `nullptr`). -/
structure Wheel where
  currentTriggerTime_ : Int
  displayDelayOption_ : Int
  currentHovered_ : Option Nat

/-! ## `mstime` arithmetic -/

/-- The value an `mstime` expression holds when its mathematical value is `x`. -/
def wrapTime (w : Option Nat) (x : Int) : Int :=
  match w with
  | none => x
  | some b => x % 2 ^ b

/-- A value is representable in the `mstime` type. -/
def Fits (w : Option Nat) (x : Int) : Prop :=
  match w with
  | none => True
  | some b => 0 ≤ x ∧ x < 2 ^ b

instance Fits.decidable (w : Option Nat) (x : Int) : Decidable (Fits w x) :=
  match w with
  | none => isTrue trivial
  | some b => inferInstanceAs (Decidable (0 ≤ x ∧ x < 2 ^ b))

/-- The expression `parent->currentTriggerTime_ + parent->displayDelayOption_.value()`. -/
def displayStart (w : Option Nat) (parent : Wheel) : Int :=
  wrapTime w (parent.currentTriggerTime_ + parent.displayDelayOption_)

/-! ## `WheelElement::hoverFadeIn` -/

section Fade

variable {α : Type} [LinearOrderedField α]

/-- The local `hoverIn` of `hoverFadeIn`:
`std::min(1.f, (currentTime - std::max(currentHoverTime_, trigger + delay)) / 1000.f * 6)`. -/
def hoverIn (w : Option Nat) (currentTime : Int) (e : WheelElement α) (parent : Wheel) : α :=
  min 1 (((wrapTime w (currentTime - max e.currentHoverTime_ (displayStart w parent)) : Int) : α)
    / 1000 * 6)

/-- The local `hoverOut` of `hoverFadeIn`:
`1.f - std::min(1.f, (currentTime - std::max(currentExitTime_, trigger + delay)) / 1000.f * 6)`. -/
def hoverOut (w : Option Nat) (currentTime : Int) (e : WheelElement α) (parent : Wheel) : α :=
  1 - min 1 (((wrapTime w (currentTime - max e.currentExitTime_ (displayStart w parent)) : Int) : α)
    / 1000 * 6)

/-- `WheelElement::hoverFadeIn`:
`parent->currentHovered_ == this ? hoverIn : std::min(hoverIn, hoverOut)`. -/
def hoverFadeIn (w : Option Nat) (currentTime : Int) (e : WheelElement α) (parent : Wheel) : α :=
  if parent.currentHovered_ = some e.self then hoverIn w currentTime e parent
  else min (hoverIn w currentTime e parent) (hoverOut w currentTime e parent)

/-- Clamp into `[0, 1]` on both sides, as the specification's `clamp01`. -/
def clamp01 (x : α) : α := max 0 (min 1 x)

/-- The specification's `hoverIn`:
`clamp01((currentTime - max(currentHoverTime, trigger + delay)) / 1000 * 6)`. -/
def specHoverIn (currentTime currentHoverTime currentTriggerTime displayDelay : Int) : α :=
  clamp01 ((((currentTime - max currentHoverTime (currentTriggerTime + displayDelay) : Int) : α))
    / 1000 * 6)

/-- The specification's `hoverOut`:
`1 - clamp01((currentTime - max(currentExitTime, trigger + delay)) / 1000 * 6)`. -/
def specHoverOut (currentTime currentExitTime currentTriggerTime displayDelay : Int) : α :=
  1 - clamp01 ((((currentTime - max currentExitTime (currentTriggerTime + displayDelay) : Int) : α))
    / 1000 * 6)

/-- The specification's hover fade: `hoverIn` for the hovered element, `min(hoverIn, hoverOut)`
otherwise. -/
def specHoverFadeIn (hovered : Bool)
    (currentTime currentHoverTime currentExitTime currentTriggerTime displayDelay : Int) : α :=
  if hovered then specHoverIn currentTime currentHoverTime currentTriggerTime displayDelay
  else min (specHoverIn currentTime currentHoverTime currentTriggerTime displayDelay)
    (specHoverOut currentTime currentExitTime currentTriggerTime displayDelay)

end Fade

/-! ## `WheelElement::Draw` -/

section Geometry

variable {α : Type} [LinearOrderedField α]

/-- The local `elementAngle` of `Draw`:
`float(n) / float(activeElementsCount) * 2 * float(M_PI)`, reset to `0` when
`activeElementsCount == 1`. -/
def elementAngle (pi : α) (n : Int) (activeElementsCount : Nat) : α :=
  if activeElementsCount = 1 then 0
  else (n : α) / (activeElementsCount : α) * 2 * pi

/-- The local `elementLocation` of `Draw`:
`{cos(elementAngle - M_PI / 2) * 0.2f, sin(elementAngle - M_PI / 2) * 0.2f}`. -/
def elementLocation (sin cos : α → α) (pi : α) (n : Int) (activeElementsCount : Nat) :
    fVector2 α :=
  { x := cos (elementAngle pi n activeElementsCount - pi / 2) * 0.2
    y := sin (elementAngle pi n activeElementsCount - pi / 2) * 0.2 }

/-- The local `elementDiameter` of `Draw` after the `if`/`else` that follows its
initialisation: `sin((2 * M_PI / activeElementsCount) / 2) * 2.f * 0.2f * 0.66f`, replaced by
`2.f * 0.2f` for one element and multiplied by `Lerp(1.f, 1.1f, SmoothStep(hoverTimer))`
otherwise. -/
def elementDiameter (sin : α → α) (pi : α) (Lerp : α → α → α → α) (SmoothStep : α → α)
    (activeElementsCount : Nat) (hoverTimer : α) : α :=
  let d := sin ((2 * pi / (activeElementsCount : α)) / 2) * 2 * 0.2 * 0.66
  if activeElementsCount = 1 then 2 * 0.2
  else d * Lerp 1 1.1 (SmoothStep hoverTimer)

/-- The factor the `switch (activeElementsCount)` of `Draw` multiplies
`spriteDimensions.z` and `spriteDimensions.w` by (`default:` leaves them unchanged). -/
def tableFactor (activeElementsCount : Nat) : α :=
  match activeElementsCount with
  | 1 => 0.5
  | 2 => 0.7
  | 3 => 0.9
  | 4 => 0.95
  | _ => 1

/-- `WheelElement::Draw`, as the value of `spriteDimensions` it hands to the vertex shader.
The parameter `elementHovered` of the source is not read by the body and is left out. -/
def Draw (sin cos : α → α) (pi : α) (Lerp : α → α → α → α) (SmoothStep : α → α)
    (w : Option Nat) (e : WheelElement α) (n : Int) (spriteDimensions : fVector4 α)
    (activeElementsCount : Nat) (currentTime : Int) (parent : Wheel) : fVector4 α :=
  let hoverTimer : α := hoverFadeIn w currentTime e parent
  let loc := elementLocation sin cos pi n activeElementsCount
  let x := spriteDimensions.x + loc.x * spriteDimensions.z
  let y := spriteDimensions.y + loc.y * spriteDimensions.w
  let d := elementDiameter sin pi Lerp SmoothStep activeElementsCount hoverTimer
  let z := spriteDimensions.z * tableFactor activeElementsCount
  let w1 := spriteDimensions.w * tableFactor activeElementsCount
  { x := x, y := y, z := z * d, w := w1 * d * e.aspectRatio_ }

/-- The scale `Draw` applies to the sprite size for `activeElementsCount` elements and hover
fade `hoverTimer`: the `switch` factor times `elementDiameter`. -/
def sizeScale (sin : α → α) (pi : α) (Lerp : α → α → α → α) (SmoothStep : α → α)
    (activeElementsCount : Nat) (hoverTimer : α) : α :=
  tableFactor activeElementsCount
    * elementDiameter sin pi Lerp SmoothStep activeElementsCount hoverTimer

/-- Modelled from the spec: `Lerp` of `Utility.h`, which is not among the sources at hand;
the "linear interpolation" of the animation helper, from `a` at `s = 0` to `b` at `s = 1`. -/
def lerpModel (a b s : α) : α := (1 - s) * a + s * b

/-- Modelled from the spec: `SmoothStep` of `Utility.h`, which is not among the sources at
hand; the "smoothstep" easing `3 x² - 2 x³` of the animation helper. -/
def smoothStepModel (x : α) : α := 3 * x * x - 2 * x * x * x

end Geometry

/-! ## `WheelElement::DrawPriority` -/

/-- `WheelElement::DrawPriority`, as its return value.  `upPressed` and `downPressed` are the
values `ImGui::Button` returns for the arrow-up and the arrow-down button; each is consulted
only when its button is drawn. -/
def DrawPriority (extremumIndicator : Int) (upPressed downPressed : Bool) : Int :=
  let rv : Int := 0
  let rv := if extremumIndicator ≠ 1 then (if upPressed then 1 else rv) else rv
  let rv := if extremumIndicator ≠ -1 then (if downPressed then -1 else rv) else rv
  rv

/-! ## Lemmas on `mstime` arithmetic -/

theorem wrapTime_of_fits (w : Option Nat) (x : Int) (h : Fits w x) : wrapTime w x = x := by
  cases w with
  | none => rfl
  | some b =>
    obtain ⟨h0, h1⟩ := h
    exact Int.emod_eq_of_lt h0 h1

theorem wrapTime_zero (w : Option Nat) : wrapTime w 0 = 0 := by
  cases w with
  | none => rfl
  | some b => simp [wrapTime]

/-- A difference `t - s` of `mstime` values is exact when `s ≤ t`, `t` is representable and
`s` is not negative where the type is unsigned. -/
theorem wrapTime_sub (w : Option Nat) (t s : Int) (ht : Fits w t) (hs : w ≠ none → 0 ≤ s)
    (hst : s ≤ t) : wrapTime w (t - s) = t - s := by
  cases w with
  | none => rfl
  | some b =>
    obtain ⟨_, h1⟩ := ht
    have h0 : 0 ≤ s := hs (by simp)
    exact Int.emod_eq_of_lt (by omega) (by omega)

theorem displayStart_nonneg (w : Option Nat) (parent : Wheel) (hw : w ≠ none) :
    0 ≤ displayStart w parent := by
  cases w with
  | none => exact absurd rfl hw
  | some b =>
    have h2 : (2 : Int) ^ b ≠ 0 := by positivity
    exact Int.emod_nonneg _ h2

section FadeLemmas

variable {α : Type} [LinearOrderedField α]

/-- The ramp `min(1, d / 1000 * 6)` is monotone in the integer difference `d`. -/
theorem ramp_mono (x y : Int) (h : x ≤ y) :
    min (1 : α) ((x : α) / 1000 * 6) ≤ min (1 : α) ((y : α) / 1000 * 6) := by
  have hc : (x : α) ≤ (y : α) := Int.cast_le.mpr h
  exact min_le_min le_rfl (by gcongr)

theorem hoverIn_le_one (w : Option Nat) (t : Int) (e : WheelElement α) (p : Wheel) :
    hoverIn w t e p ≤ 1 := min_le_left _ _

/-- From the start of the fade-in timer on, `hoverIn` is the exact ramp. -/
theorem hoverIn_of_started (w : Option Nat) (t : Int) (e : WheelElement α) (p : Wheel)
    (ht : Fits w t) (h : max e.currentHoverTime_ (displayStart w p) ≤ t) :
    hoverIn w t e p
      = min 1 (((t - max e.currentHoverTime_ (displayStart w p) : Int) : α) / 1000 * 6) := by
  unfold hoverIn
  rw [wrapTime_sub w t _ ht
    (fun hw => le_trans (displayStart_nonneg w p hw) (le_max_right _ _)) h]

/-- From the start of the fade-out timer on, `hoverOut` is the exact ramp. -/
theorem hoverOut_of_started (w : Option Nat) (t : Int) (e : WheelElement α) (p : Wheel)
    (ht : Fits w t) (h : max e.currentExitTime_ (displayStart w p) ≤ t) :
    hoverOut w t e p
      = 1 - min 1 (((t - max e.currentExitTime_ (displayStart w p) : Int) : α) / 1000 * 6) := by
  unfold hoverOut
  rw [wrapTime_sub w t _ ht
    (fun hw => le_trans (displayStart_nonneg w p hw) (le_max_right _ _)) h]

theorem clamp01_ramp_of_nonneg (d : Int) (h : 0 ≤ d) :
    clamp01 ((d : α) / 1000 * 6) = min 1 ((d : α) / 1000 * 6) := by
  have hd : (0 : α) ≤ (d : α) := Int.cast_nonneg.mpr h
  have hx : (0 : α) ≤ (d : α) / 1000 * 6 := by positivity
  exact max_eq_right (le_min zero_le_one hx)

end FadeLemmas

/-! ## Claims on `WheelElement::hoverFadeIn` -/

section FadeClaims

variable {α : Type} [LinearOrderedField α]

/-- C1, as stated, fails: one tick before the display delay has elapsed (trigger 1000,
delay 50, hovered at 1000, current time 1000) the hovered element's value is not the
doubly clamped `0` of the specification, neither on an exact `mstime` (the code yields
`-3/10`) nor on an unsigned 64-bit one (the difference wraps and the code yields `1`). -/
theorem hoverFadeIn_not_clamped_below :
    hoverFadeIn (α := ℚ) none 1000 ⟨1, 1000, 0, 1⟩ ⟨1000, 50, some 1⟩
        ≠ specHoverFadeIn true 1000 1000 0 1000 50
      ∧ hoverFadeIn (α := ℚ) (some 64) 1000 ⟨1, 1000, 0, 1⟩ ⟨1000, 50, some 1⟩
        ≠ specHoverFadeIn true 1000 1000 0 1000 50 := by
  constructor <;>
    norm_num [hoverFadeIn, hoverIn, displayStart, wrapTime, specHoverFadeIn, specHoverIn,
      clamp01]

/-- C1 (amended): when `currentTriggerTime + displayDelay` and `currentTime` are
representable, `currentTime` is not before `max(currentHoverTime, trigger + delay)` and,
for an element that is not hovered, not before `max(currentExitTime, trigger + delay)`
either, `hoverFadeIn` returns the specification's value: `hoverIn` for the hovered element
and `min(hoverIn, hoverOut)` otherwise, with `clamp01` clamping on both sides.  In
particular with trigger 1000, delay 50, hover time 1000 and current time 1100 the hovered
element's value is `3/10`. -/
theorem hoverFadeIn_eq_spec_of_started (w : Option Nat) (t : Int) (e : WheelElement α)
    (p : Wheel)
    (hs : Fits w (p.currentTriggerTime_ + p.displayDelayOption_))
    (ht : Fits w t)
    (hin : max e.currentHoverTime_ (p.currentTriggerTime_ + p.displayDelayOption_) ≤ t)
    (hout : p.currentHovered_ ≠ some e.self →
      max e.currentExitTime_ (p.currentTriggerTime_ + p.displayDelayOption_) ≤ t) :
    hoverFadeIn w t e p
        = specHoverFadeIn (decide (p.currentHovered_ = some e.self)) t e.currentHoverTime_
            e.currentExitTime_ p.currentTriggerTime_ p.displayDelayOption_
      ∧ (p.currentHovered_ = some e.self → p.currentTriggerTime_ = 1000 →
          p.displayDelayOption_ = 50 → e.currentHoverTime_ = 1000 → t = 1100 →
          hoverFadeIn w t e p = 3 / 10) := by
  have hds : displayStart w p = p.currentTriggerTime_ + p.displayDelayOption_ :=
    wrapTime_of_fits w _ hs
  have hI : hoverIn w t e p
      = specHoverIn t e.currentHoverTime_ p.currentTriggerTime_ p.displayDelayOption_ := by
    rw [hoverIn_of_started w t e p ht (by rw [hds]; exact hin), hds]
    exact (clamp01_ramp_of_nonneg _ (by omega)).symm
  have hmain : hoverFadeIn w t e p
      = specHoverFadeIn (decide (p.currentHovered_ = some e.self)) t e.currentHoverTime_
          e.currentExitTime_ p.currentTriggerTime_ p.displayDelayOption_ := by
    by_cases hh : p.currentHovered_ = some e.self
    · simp [hoverFadeIn, specHoverFadeIn, hh, hI]
    · have hO : hoverOut w t e p
          = specHoverOut t e.currentExitTime_ p.currentTriggerTime_ p.displayDelayOption_ := by
        rw [hoverOut_of_started w t e p ht (by rw [hds]; exact hout hh), hds]
        unfold specHoverOut
        rw [clamp01_ramp_of_nonneg _ (by have := hout hh; omega)]
      simp [hoverFadeIn, specHoverFadeIn, hh, hI, hO]
  refine ⟨hmain, ?_⟩
  intro hh h1 h2 h3 h4
  rw [hmain]
  simp only [specHoverFadeIn, hh, decide_True, if_true, specHoverIn, clamp01, h1, h2, h3, h4]
  norm_num

/-- Witness for C1 (amended): the scenario of the specification on an unsigned 64-bit
`mstime`. -/
theorem hoverFadeIn_eq_spec_of_started_witness :
    Fits (some 64) (1000 + 50) ∧ Fits (some 64) 1100 ∧ max (1000 : Int) (1000 + 50) ≤ 1100
      ∧ hoverFadeIn (α := ℚ) (some 64) 1100 ⟨1, 1000, 0, 1⟩ ⟨1000, 50, some 1⟩ = 3 / 10 :=
  ⟨by simp [Fits], by simp [Fits], by decide,
    (hoverFadeIn_eq_spec_of_started (α := ℚ) (some 64) 1100 ⟨1, 1000, 0, 1⟩ ⟨1000, 50, some 1⟩
      (by simp [Fits]) (by simp [Fits]) (by decide) (by simp)).2 rfl rfl rfl rfl rfl⟩

/-- C2, as stated, fails on an unsigned `mstime`: for the hovered element (trigger 1000,
delay 50, hovered at 1000) the value at time 1000, where the difference wraps, is `1`, and
the value at the later time 1050 is `0`. -/
theorem hoverFadeIn_hovered_not_mono_unsigned :
    (1000 : Int) ≤ 1050
      ∧ ¬ (hoverFadeIn (α := ℚ) (some 64) 1000 ⟨1, 1000, 0, 1⟩ ⟨1000, 50, some 1⟩
          ≤ hoverFadeIn (α := ℚ) (some 64) 1050 ⟨1, 1000, 0, 1⟩ ⟨1000, 50, some 1⟩) := by
  constructor
  · decide
  · norm_num [hoverFadeIn, hoverIn, displayStart, wrapTime]

/-- C2 (amended): for the currently hovered element and `t1 ≤ t2`, `hoverFadeIn(t1) ≤
hoverFadeIn(t2)` once the fade-in timer has started, that is when
`max(currentHoverTime, trigger + delay) ≤ t1` (and `t2` is representable); on an `mstime`
whose differences are exact this holds for all `t1 ≤ t2`. -/
theorem hoverFadeIn_hovered_mono (w : Option Nat) (t1 t2 : Int) (e : WheelElement α)
    (p : Wheel) (hh : p.currentHovered_ = some e.self) (h12 : t1 ≤ t2) :
    (w = none → hoverFadeIn w t1 e p ≤ hoverFadeIn w t2 e p)
      ∧ (Fits w t2 → max e.currentHoverTime_ (displayStart w p) ≤ t1 →
          hoverFadeIn w t1 e p ≤ hoverFadeIn w t2 e p) := by
  constructor
  · intro hw
    subst hw
    simp only [hoverFadeIn, hh, if_true, hoverIn, wrapTime]
    exact ramp_mono _ _ (by omega)
  · intro ht2 hs
    have ht1 : Fits w t1 := by
      cases w with
      | none => trivial
      | some b =>
        have h0 := displayStart_nonneg (some b) p (by simp)
        have h1 := le_max_right e.currentHoverTime_ (displayStart (some b) p)
        exact ⟨by omega, lt_of_le_of_lt h12 ht2.2⟩
    simp only [hoverFadeIn, hh, if_true]
    rw [hoverIn_of_started w t1 e p ht1 hs, hoverIn_of_started w t2 e p ht2 (le_trans hs h12)]
    exact ramp_mono _ _ (by omega)

/-- Witness for C2 (amended): trigger 1000, delay 50, hovered at 1000, times 1060 and 1100
on an unsigned 64-bit `mstime`. -/
theorem hoverFadeIn_hovered_mono_witness :
    (1060 : Int) ≤ 1100
      ∧ hoverFadeIn (α := ℚ) (some 64) 1060 ⟨1, 1000, 0, 1⟩ ⟨1000, 50, some 1⟩
          ≤ hoverFadeIn (α := ℚ) (some 64) 1100 ⟨1, 1000, 0, 1⟩ ⟨1000, 50, some 1⟩ :=
  ⟨by decide,
    (hoverFadeIn_hovered_mono (α := ℚ) (some 64) 1060 1100 ⟨1, 1000, 0, 1⟩ ⟨1000, 50, some 1⟩
      rfl (by decide)).2 (by simp [Fits]) (by simp [displayStart, wrapTime])⟩

/-- C3, as stated, fails: an element hovered at 1060 and left at 1070 (trigger 1000,
delay 50, so both timers have started at 1070) has the value `3/50` at 1070 and the larger
value `6/25` at 1100; the fade-in ramp is still below the fade-out ramp, and `min` follows
the rising one.  This holds on an exact and on an unsigned 64-bit `mstime` alike. -/
theorem hoverFadeIn_exited_not_antitone :
    ((1060 : Int) ≤ 1070 ∧ (1070 : Int) ≤ 1100 ∧ (1070 : Int) ≥ 1070 ∧ (1070 : Int) ≥ 1000 + 50)
      ∧ ¬ (hoverFadeIn (α := ℚ) none 1100 ⟨1, 1060, 1070, 1⟩ ⟨1000, 50, none⟩
          ≤ hoverFadeIn (α := ℚ) none 1070 ⟨1, 1060, 1070, 1⟩ ⟨1000, 50, none⟩)
      ∧ ¬ (hoverFadeIn (α := ℚ) (some 64) 1100 ⟨1, 1060, 1070, 1⟩ ⟨1000, 50, none⟩
          ≤ hoverFadeIn (α := ℚ) (some 64) 1070 ⟨1, 1060, 1070, 1⟩ ⟨1000, 50, none⟩) := by
  refine ⟨by decide, ?_, ?_⟩ <;>
    norm_num [hoverFadeIn, hoverIn, hoverOut, displayStart, wrapTime]

/-- C3 (amended): for an element that is not hovered, with `currentExitTime ≥
currentHoverTime`, and `t1 ≤ t2` with `t1 ≥ currentExitTime` and `t1 ≥ trigger + delay`
(`t2` representable), `hoverFadeIn(t2) ≤ hoverFadeIn(t1)` provided the fade-out ramp has
reached the fade-in ramp at `t1`, that is `hoverOut(t1) ≤ hoverIn(t1)`. -/
theorem hoverFadeIn_exited_antitone (w : Option Nat) (t1 t2 : Int) (e : WheelElement α)
    (p : Wheel) (hn : p.currentHovered_ ≠ some e.self)
    (_hhe : e.currentHoverTime_ ≤ e.currentExitTime_)
    (h12 : t1 ≤ t2) (he : e.currentExitTime_ ≤ t1) (hd : displayStart w p ≤ t1)
    (ht2 : Fits w t2) (hx : hoverOut w t1 e p ≤ (hoverIn w t1 e p : α)) :
    (hoverFadeIn w t2 e p : α) ≤ hoverFadeIn w t1 e p := by
  have hs : max e.currentExitTime_ (displayStart w p) ≤ t1 := max_le he hd
  have ht1 : Fits w t1 := by
    cases w with
    | none => trivial
    | some b =>
      have h0 := displayStart_nonneg (some b) p (by simp)
      exact ⟨by omega, lt_of_le_of_lt h12 ht2.2⟩
  have hO : (hoverOut w t2 e p : α) ≤ hoverOut w t1 e p := by
    rw [hoverOut_of_started w t1 e p ht1 hs, hoverOut_of_started w t2 e p ht2 (le_trans hs h12)]
    exact sub_le_sub_left (ramp_mono _ _ (by omega)) 1
  simp only [hoverFadeIn, hn, if_false]
  rw [min_eq_right hx]
  exact le_trans (min_le_right _ _) hO

/-- Witness for C3 (amended): hovered at 1050, left at 1250 (fade-in complete), times 1260
and 1300, trigger 1000 and delay 50, on an unsigned 64-bit `mstime`. -/
theorem hoverFadeIn_exited_antitone_witness :
    hoverOut (α := ℚ) (some 64) 1260 ⟨1, 1050, 1250, 1⟩ ⟨1000, 50, none⟩
        ≤ hoverIn (α := ℚ) (some 64) 1260 ⟨1, 1050, 1250, 1⟩ ⟨1000, 50, none⟩
      ∧ hoverFadeIn (α := ℚ) (some 64) 1300 ⟨1, 1050, 1250, 1⟩ ⟨1000, 50, none⟩
        ≤ hoverFadeIn (α := ℚ) (some 64) 1260 ⟨1, 1050, 1250, 1⟩ ⟨1000, 50, none⟩ :=
  ⟨by norm_num [hoverIn, hoverOut, displayStart, wrapTime],
    hoverFadeIn_exited_antitone (α := ℚ) (some 64) 1260 1300 ⟨1, 1050, 1250, 1⟩
      ⟨1000, 50, none⟩ (by simp) (by decide) (by decide) (by decide)
      (by simp [displayStart, wrapTime]) (by simp [Fits])
      (by norm_num [hoverIn, hoverOut, displayStart, wrapTime])⟩

/-- C4, as stated, fails: right at a new trigger (trigger 1000, delay 50, earlier hover and
exit times 0, current time 1000) the hovered element's value is not `0`, neither on an
exact `mstime` (`-3/10`) nor on an unsigned 64-bit one (`1`). -/
theorem hoverFadeIn_not_zero_in_delay :
    ((0 : Int) ≤ 1000 ∧ (1000 : Int) ≤ 1000 ∧ (1000 : Int) ≤ 1000 + 50)
      ∧ hoverFadeIn (α := ℚ) none 1000 ⟨1, 0, 0, 1⟩ ⟨1000, 50, some 1⟩ ≠ 0
      ∧ hoverFadeIn (α := ℚ) (some 64) 1000 ⟨1, 0, 0, 1⟩ ⟨1000, 50, some 1⟩ ≠ 0 := by
  refine ⟨by decide, ?_, ?_⟩ <;>
    norm_num [hoverFadeIn, hoverIn, displayStart, wrapTime]

/-- C4 (amended): for every element, hovered or not, whose `currentHoverTime` and
`currentExitTime` are not later than the new `currentTriggerTime`, `hoverFadeIn` returns `0`
at the moment the display delay elapses, `currentTime = currentTriggerTime + displayDelay`
(as the program computes that sum, and not before the trigger), whatever the prior
timestamps were. -/
theorem hoverFadeIn_zero_at_displayStart (w : Option Nat) (e : WheelElement α) (p : Wheel)
    (hh : e.currentHoverTime_ ≤ p.currentTriggerTime_)
    (he : e.currentExitTime_ ≤ p.currentTriggerTime_)
    (ht : p.currentTriggerTime_ ≤ displayStart w p) :
    (hoverFadeIn w (displayStart w p) e p : α) = 0 := by
  have h1 : max e.currentHoverTime_ (displayStart w p) = displayStart w p :=
    max_eq_right (le_trans hh ht)
  have h2 : max e.currentExitTime_ (displayStart w p) = displayStart w p :=
    max_eq_right (le_trans he ht)
  have hI : (hoverIn w (displayStart w p) e p : α) = 0 := by
    simp [hoverIn, h1, wrapTime_zero]
  have hO : (hoverOut w (displayStart w p) e p : α) = 1 := by
    simp [hoverOut, h2, wrapTime_zero]
  unfold hoverFadeIn
  split
  · exact hI
  · rw [hI, hO]; exact min_eq_left zero_le_one

/-- Witness for C4 (amended): trigger 1000, delay 50, an element last hovered at 300 and
left at 900, not hovered, on an unsigned 64-bit `mstime`. -/
theorem hoverFadeIn_zero_at_displayStart_witness :
    displayStart (some 64) ⟨1000, 50, none⟩ = 1050
      ∧ hoverFadeIn (α := ℚ) (some 64) 1050 ⟨1, 300, 900, 1⟩ ⟨1000, 50, none⟩ = 0 :=
  ⟨by simp [displayStart, wrapTime],
    hoverFadeIn_zero_at_displayStart (α := ℚ) (some 64) ⟨1, 300, 900, 1⟩ ⟨1000, 50, none⟩
      (by decide) (by decide) (by simp [displayStart, wrapTime])⟩

/-- C5: when hover moves from `A` to `B` at one timestamp `t ≥ trigger + delay` (so
`A.currentExitTime = t`, `B.currentHoverTime = t` and `B` is the hovered element), the value
of `A` as a non-hovered element at `t` equals the value `A` had at `t` as the hovered element
(whatever its exit time was then), and the value of `B` at `t` is `0`. -/
theorem hoverFadeIn_handover (w : Option Nat) (t : Int) (A B : WheelElement α) (p : Wheel)
    (exitBefore : Int)
    (ht : displayStart w p ≤ t)
    (hA : A.currentExitTime_ = t) (hB : B.currentHoverTime_ = t)
    (hp : p.currentHovered_ = some B.self) (hAB : A.self ≠ B.self) :
    (hoverFadeIn w t A p : α)
        = hoverFadeIn w t { A with currentExitTime_ := exitBefore }
            { p with currentHovered_ := some A.self }
      ∧ (hoverFadeIn w t B p : α) = 0 := by
  have hnA : p.currentHovered_ ≠ some A.self := by
    rw [hp]; intro h; exact hAB (Option.some.inj h).symm
  have hO : (hoverOut w t A p : α) = 1 := by
    simp [hoverOut, hA, max_eq_left ht, wrapTime_zero]
  constructor
  · have hI : (hoverIn w t { A with currentExitTime_ := exitBefore }
        { p with currentHovered_ := some A.self } : α) = hoverIn w t A p := rfl
    simp only [hoverFadeIn, hnA, if_false, if_true, hI, hO]
    exact min_eq_left (hoverIn_le_one w t A p)
  · simp [hoverFadeIn, hp, hoverIn, hB, max_eq_left ht, wrapTime_zero]

/-- Witness for C5: trigger 1000, delay 50, `A` hovered at 1060, hover moving to `B` at
1100, on an unsigned 64-bit `mstime`; both values are evaluated. -/
theorem hoverFadeIn_handover_witness :
    displayStart (some 64) ⟨1000, 50, some 2⟩ ≤ 1100
      ∧ (hoverFadeIn (α := ℚ) (some 64) 1100 ⟨1, 1060, 1100, 1⟩ ⟨1000, 50, some 2⟩
          = hoverFadeIn (α := ℚ) (some 64) 1100 ⟨1, 1060, 0, 1⟩ ⟨1000, 50, some 1⟩
        ∧ hoverFadeIn (α := ℚ) (some 64) 1100 ⟨2, 1100, 0, 1⟩ ⟨1000, 50, some 2⟩ = 0) :=
  ⟨by simp [displayStart, wrapTime],
    hoverFadeIn_handover (α := ℚ) (some 64) 1100 ⟨1, 1060, 1100, 1⟩ ⟨2, 1100, 0, 1⟩
      ⟨1000, 50, some 2⟩ 0 (by simp [displayStart, wrapTime]) rfl rfl rfl (by decide)⟩

end FadeClaims

/-! ## Lemmas on the layout -/

/-- The argument `(2 * M_PI / N) / 2` of the sine in `elementDiameter` is `π / N`. -/
theorem half_arc (N : Nat) : (2 * Real.pi / (N : ℝ)) / 2 = Real.pi / N := by ring

theorem tableFactor_of_five_le {α : Type} [LinearOrderedField α] (N : Nat) (h : 5 ≤ N) :
    (tableFactor N : α) = 1 := by
  obtain ⟨k, rfl⟩ := Nat.exists_eq_add_of_le h
  rw [show 5 + k = k + 5 by omega]
  rfl

theorem tableFactor_pos (N : Nat) : (0 : ℝ) < tableFactor N := by
  unfold tableFactor
  split <;> norm_num

theorem tableFactor_le_one (N : Nat) : (tableFactor N : ℝ) ≤ 1 := by
  unfold tableFactor
  split <;> norm_num

/-- For `N ≥ 1` and a slot index `0 ≤ n < N` the angle is `2 π n / N`. -/
theorem elementAngle_eq (N : Nat) (n : Int) (h0 : 0 ≤ n) (hn : n < N) :
    elementAngle Real.pi n N = 2 * Real.pi * n / N := by
  unfold elementAngle
  split
  · next h1 =>
    have : n = 0 := by omega
    subst this
    simp
  · ring

theorem sin_slot_pos (N : Nat) (hN : 2 ≤ N) : 0 < Real.sin (Real.pi / N) := by
  have hN1 : (1 : ℝ) < N := by exact_mod_cast hN
  exact Real.sin_pos_of_pos_of_lt_pi (by positivity) (div_lt_self Real.pi_pos hN1)

/-- The size `Draw` hands on is the incoming size times `sizeScale` at the element's hover
fade. -/
theorem Draw_z {α : Type} [LinearOrderedField α] (sin cos : α → α) (pi : α)
    (Lerp : α → α → α → α) (SmoothStep : α → α) (w : Option Nat) (e : WheelElement α)
    (n : Int) (sd : fVector4 α) (N : Nat) (t : Int) (p : Wheel) :
    (Draw sin cos pi Lerp SmoothStep w e n sd N t p).z
      = sd.z * sizeScale sin pi Lerp SmoothStep N (hoverFadeIn w t e p) := by
  simp only [Draw, sizeScale]
  ring

/-- The centres of two adjacent slots of a wheel of `N ≥ 2` elements, as `elementLocation`
places them, are `2 * 0.2 * sin(π / N)` apart (stated on the squared distance). -/
theorem slot_distance_sq (N : Nat) (n : Int) (hN : 2 ≤ N) :
    ((elementLocation Real.sin Real.cos Real.pi (n + 1) N).x
          - (elementLocation Real.sin Real.cos Real.pi n N).x) ^ 2
        + ((elementLocation Real.sin Real.cos Real.pi (n + 1) N).y
          - (elementLocation Real.sin Real.cos Real.pi n N).y) ^ 2
      = (2 * 0.2 * Real.sin (Real.pi / N)) ^ 2 := by
  have hne : N ≠ 1 := by omega
  have hNpos : (0 : ℝ) < N := by
    have : 0 < N := by omega
    exact_mod_cast this
  simp only [elementLocation, elementAngle, hne, if_false]
  set a : ℝ := (n : ℝ) / N * 2 * Real.pi - Real.pi / 2 with ha
  set d : ℝ := Real.pi / N with hd
  have hstep : (((n + 1 : Int) : ℝ)) / N * 2 * Real.pi - Real.pi / 2 = a + 2 * d := by
    rw [ha, hd]
    push_cast
    field_simp
    ring
  rw [hstep]
  have hc : Real.cos (a + 2 * d) = Real.cos a * Real.cos (2 * d) - Real.sin a * Real.sin (2 * d) :=
    Real.cos_add a (2 * d)
  have hs : Real.sin (a + 2 * d) = Real.sin a * Real.cos (2 * d) + Real.cos a * Real.sin (2 * d) :=
    Real.sin_add a (2 * d)
  have h2c : Real.cos (2 * d) = 1 - 2 * Real.sin d ^ 2 := by
    rw [Real.cos_two_mul, Real.cos_sq']
    ring
  have h2s : Real.sin (2 * d) = 2 * Real.sin d * Real.cos d := Real.sin_two_mul d
  have hp1 := Real.sin_sq_add_cos_sq a
  have hp2 := Real.sin_sq_add_cos_sq d
  rw [hc, hs, h2c, h2s]
  have hcd : Real.cos d ^ 2 = 1 - Real.sin d ^ 2 := by linarith
  have hca : Real.cos a ^ 2 = 1 - Real.sin a ^ 2 := by linarith
  have key : ((Real.cos a * (1 - 2 * Real.sin d ^ 2) - Real.sin a * (2 * Real.sin d * Real.cos d)) * 0.2
        - Real.cos a * 0.2) ^ 2
      + ((Real.sin a * (1 - 2 * Real.sin d ^ 2) + Real.cos a * (2 * Real.sin d * Real.cos d)) * 0.2
        - Real.sin a * 0.2) ^ 2
      = 0.16 * Real.sin d ^ 2 * (Real.sin a ^ 2 + Real.cos a ^ 2)
          * (Real.sin d ^ 2 + Real.cos d ^ 2) := by ring
  rw [key, hp1, hp2]
  ring

/-- The growth `Lerp(1, 1.1, SmoothStep(s))` of the modelled helpers lies in `[1, 1.1]` for
`s` in `[0, 1]`. -/
theorem growth_model_bounds (s : ℝ) (h0 : 0 ≤ s) (h1 : s ≤ 1) :
    1 ≤ lerpModel 1 1.1 (smoothStepModel s) ∧ lerpModel 1 1.1 (smoothStepModel s) ≤ 1.1 := by
  have hu0 : 0 ≤ smoothStepModel s := by
    unfold smoothStepModel
    have : 3 * s * s - 2 * s * s * s = s * s * (3 - 2 * s) := by ring
    rw [this]
    have : 0 ≤ 3 - 2 * s := by linarith
    positivity
  have hu1 : smoothStepModel s ≤ 1 := by
    unfold smoothStepModel
    have : 1 - (3 * s * s - 2 * s * s * s) = (1 - s) * (1 - s) * (1 + 2 * s) := by ring
    have h2 : 0 ≤ (1 - s) * (1 - s) * (1 + 2 * s) := by
      have : 0 ≤ 1 - s := by linarith
      positivity
    linarith
  unfold lerpModel
  constructor <;> linarith

/-! ## Claims on `WheelElement::Draw` -/

/-- C6: for every `N ≥ 1` and slot index `0 ≤ n < N` the angle `Draw` computes is
`2 π n / N` (which is `0` when `N = 1`); it lies in `[0, 2π)`, distinct indices of the wheel
get distinct angles, and consecutive indices are `2 π / N` apart. -/
theorem elementAngle_slots (N : Nat) (n : Int) (hN : 1 ≤ N) (h0 : 0 ≤ n) (hn : n < N) :
    elementAngle Real.pi n N = 2 * Real.pi * n / N
      ∧ (N = 1 → elementAngle Real.pi n N = 0)
      ∧ 0 ≤ elementAngle Real.pi n N ∧ elementAngle Real.pi n N < 2 * Real.pi
      ∧ (∀ m : Int, 0 ≤ m → m < N → elementAngle Real.pi m N = elementAngle Real.pi n N → m = n)
      ∧ (n + 1 < N → elementAngle Real.pi (n + 1) N - elementAngle Real.pi n N = 2 * Real.pi / N) := by
  have hNpos : (0 : ℝ) < N := by exact_mod_cast hN
  have hn0 : (0 : ℝ) ≤ n := by exact_mod_cast h0
  have hnN : (n : ℝ) < N := by exact_mod_cast hn
  have hpi := Real.pi_pos
  refine ⟨elementAngle_eq N n h0 hn, ?_, ?_, ?_, ?_, ?_⟩
  · intro h1
    simp [elementAngle, h1]
  · rw [elementAngle_eq N n h0 hn]
    positivity
  · rw [elementAngle_eq N n h0 hn, div_lt_iff₀ hNpos]
    nlinarith
  · intro m hm0 hmN h
    rw [elementAngle_eq N n h0 hn, elementAngle_eq N m hm0 hmN] at h
    have h2 : 2 * Real.pi * (m : ℝ) / N * N = 2 * Real.pi * (n : ℝ) / N * N := by rw [h]
    rw [div_mul_cancel₀ _ (ne_of_gt hNpos), div_mul_cancel₀ _ (ne_of_gt hNpos)] at h2
    have h3 : (m : ℝ) = n := by
      have h4 : (2 * Real.pi) ≠ 0 := by positivity
      exact mul_left_cancel₀ h4 h2
    exact_mod_cast h3
  · intro h1
    rw [elementAngle_eq N n h0 hn, elementAngle_eq N (n + 1) (by omega) h1]
    push_cast
    field_simp
    ring

/-- Witness for C6: slot 2 of 5. -/
theorem elementAngle_slots_witness :
    elementAngle Real.pi 2 5 = 2 * Real.pi * ((2 : Int) : ℝ) / ((5 : Nat) : ℝ) :=
  (elementAngle_slots 5 2 (by decide) (by decide) (by decide)).1

/-- C7, as stated, fails: with one visible element and the sprite `(1/2, 1/2, 1, 1)` the
position `Draw` produces is `(1/2, 3/10)`; the offset added to the centre is `(0, -1/5)`, not
`(0, 0)`. -/
theorem Draw_single_not_centered :
    ¬ ((Draw Real.sin Real.cos Real.pi lerpModel smoothStepModel none ⟨1, 1000, 0, 1⟩ 0 ⟨1 / 2, 1 / 2, 1, 1⟩ 1
          1100 ⟨1000, 50, some 1⟩).x - 1 / 2 = 0
      ∧ (Draw Real.sin Real.cos Real.pi lerpModel smoothStepModel none ⟨1, 1000, 0, 1⟩ 0 ⟨1 / 2, 1 / 2, 1, 1⟩ 1
          1100 ⟨1000, 50, some 1⟩).y - 1 / 2 = 0) := by
  rintro ⟨-, hy⟩
  simp only [Draw, elementLocation, elementAngle, if_true, zero_sub, Real.sin_neg,
    Real.sin_pi_div_two] at hy
  norm_num at hy

/-- C7 (amended): when exactly one element is visible, `Draw` leaves `spriteDimensions.x`
unchanged and adds `-0.2 * spriteDimensions.w` to `spriteDimensions.y`: the offset is
`(0, -0.2 * spriteDimensions.w)`, the top slot at the base radius, for every slot index. -/
theorem Draw_single_position (Lerp : ℝ → ℝ → ℝ → ℝ) (SmoothStep : ℝ → ℝ) (w : Option Nat)
    (e : WheelElement ℝ) (n : Int) (sd : fVector4 ℝ) (t : Int) (p : Wheel) :
    (Draw Real.sin Real.cos Real.pi Lerp SmoothStep w e n sd 1 t p).x - sd.x = 0
      ∧ (Draw Real.sin Real.cos Real.pi Lerp SmoothStep w e n sd 1 t p).y - sd.y = -0.2 * sd.w := by
  simp only [Draw, elementLocation, elementAngle, if_true, zero_sub, Real.sin_neg, Real.cos_neg,
    Real.sin_pi_div_two, Real.cos_pi_div_two]
  constructor <;> ring

/-- C8: for every count `N ≥ 2` and every hover fade `h` in `[0, 1]`, given that the hover
growth `Lerp(1, 1.1, SmoothStep(s))` lies between `1` and `1.1` for such fades, the scale
`Draw` applies to an element (`sin(π/N) * 2 * 0.2 * 0.66`, times the hover growth, times the
table factor) is strictly less than the distance `2 * 0.2 * sin(π/N)` between the centres of
two adjacent slots. -/
theorem sizeScale_lt_slot_distance (N : Nat) (Lerp : ℝ → ℝ → ℝ → ℝ) (SmoothStep : ℝ → ℝ)
    (h : ℝ) (hN : 2 ≤ N) (h0 : 0 ≤ h) (h1 : h ≤ 1)
    (hg : ∀ s : ℝ, 0 ≤ s → s ≤ 1 →
      1 ≤ Lerp 1 1.1 (SmoothStep s) ∧ Lerp 1 1.1 (SmoothStep s) ≤ 1.1) :
    sizeScale Real.sin Real.pi Lerp SmoothStep N h < 2 * 0.2 * Real.sin (Real.pi / N) := by
  obtain ⟨hg1, hg2⟩ := hg h h0 h1
  have hs := sin_slot_pos N hN
  have htp := tableFactor_pos N
  have ht1 := tableFactor_le_one N
  have hne : N ≠ 1 := by omega
  simp only [sizeScale, elementDiameter, hne, if_false, half_arc]
  have hprod : tableFactor N * Lerp 1 1.1 (SmoothStep h) ≤ 1 * 1.1 :=
    mul_le_mul ht1 hg2 (by linarith) (by norm_num)
  have hrw : tableFactor N * (Real.sin (Real.pi / N) * 2 * 0.2 * 0.66 * Lerp 1 1.1 (SmoothStep h))
      = Real.sin (Real.pi / N) * (0.264 * (tableFactor N * Lerp 1 1.1 (SmoothStep h))) := by ring
  rw [hrw]
  have hlt : 0.264 * (tableFactor N * Lerp 1 1.1 (SmoothStep h)) < 2 * 0.2 := by
    have : 0.264 * (tableFactor N * Lerp 1 1.1 (SmoothStep h)) ≤ 0.264 * (1 * 1.1) :=
      mul_le_mul_of_nonneg_left hprod (by norm_num)
    have h5 : (0.264 : ℝ) * (1 * 1.1) < 2 * 0.2 := by norm_num
    linarith
  have := mul_lt_mul_of_pos_left hlt hs
  linarith

/-- Witness for C8: six elements, hover fade `1/2`, with the modelled `Lerp` and
`SmoothStep`. -/
theorem sizeScale_lt_slot_distance_witness :
    sizeScale Real.sin Real.pi lerpModel smoothStepModel 6 (1 / 2) < 2 * 0.2 * Real.sin (Real.pi / ((6 : Nat) : ℝ)) :=
  sizeScale_lt_slot_distance 6 lerpModel smoothStepModel (1 / 2) (by decide) (by norm_num)
    (by norm_num) growth_model_bounds

/-- C9, as stated, fails at `N = 2`: the scale of an un-hovered element among three
visible elements, `0.9 * sin(π/3) * 0.264`, is larger than the scale among two,
`0.7 * sin(π/2) * 0.264`. -/
theorem sizeScale_three_gt_two :
    ¬ (sizeScale Real.sin Real.pi lerpModel smoothStepModel (2 + 1) 0
        ≤ sizeScale Real.sin Real.pi lerpModel smoothStepModel 2 0) := by
  have h3 : (1.7 : ℝ) < Real.sqrt 3 := by
    rw [show (1.7 : ℝ) = Real.sqrt (1.7 ^ 2) by rw [Real.sqrt_sq (by norm_num)]]
    exact Real.sqrt_lt_sqrt (by norm_num) (by norm_num)
  have e3 : (2 * Real.pi / ((3 : Nat) : ℝ)) / 2 = Real.pi / 3 := by push_cast; ring
  have e2 : (2 * Real.pi / ((2 : Nat) : ℝ)) / 2 = Real.pi / 2 := by push_cast; ring
  simp only [sizeScale, elementDiameter, tableFactor, lerpModel, smoothStepModel,
    show (2 + 1 : Nat) = 3 from rfl, e3, e2, Real.sin_pi_div_three, Real.sin_pi_div_two]
  norm_num
  nlinarith

/-- C9 (amended): for every `N ≥ 1` other than `N = 2`, the scale `Draw` applies to an
un-hovered element (hover fade `0`, for which the growth `Lerp(1, 1.1, SmoothStep(0))` is
`1`), the product of `elementDiameter` and the table factor, for `N + 1` visible elements is
at most the one for `N` visible elements. -/
theorem sizeScale_succ_le (N : Nat) (Lerp : ℝ → ℝ → ℝ → ℝ) (SmoothStep : ℝ → ℝ)
    (hN : 1 ≤ N) (hne : N ≠ 2) (hg : Lerp 1 1.1 (SmoothStep 0) = 1) :
    sizeScale Real.sin Real.pi Lerp SmoothStep (N + 1) 0 ≤ sizeScale Real.sin Real.pi Lerp SmoothStep N 0 := by
  have hs2lo : (1.41 : ℝ) < Real.sqrt 2 := by
    rw [show (1.41 : ℝ) = Real.sqrt (1.41 ^ 2) by rw [Real.sqrt_sq (by norm_num)]]
    exact Real.sqrt_lt_sqrt (by norm_num) (by norm_num)
  have hs2hi : Real.sqrt 2 < (1.42 : ℝ) := by
    rw [show (1.42 : ℝ) = Real.sqrt (1.42 ^ 2) by rw [Real.sqrt_sq (by norm_num)]]
    exact Real.sqrt_lt_sqrt (by norm_num) (by norm_num)
  have hs3lo : (1.73 : ℝ) < Real.sqrt 3 := by
    rw [show (1.73 : ℝ) = Real.sqrt (1.73 ^ 2) by rw [Real.sqrt_sq (by norm_num)]]
    exact Real.sqrt_lt_sqrt (by norm_num) (by norm_num)
  rcases Nat.lt_or_ge N 5 with hlt | hge
  · have hcases : N = 1 ∨ N = 3 ∨ N = 4 := by omega
    rcases hcases with rfl | rfl | rfl
    · have e2 : (2 * Real.pi / ((2 : Nat) : ℝ)) / 2 = Real.pi / 2 := by push_cast; ring
      simp only [sizeScale, elementDiameter, tableFactor, hg, show (1 + 1 : Nat) = 2 from rfl,
        e2, Real.sin_pi_div_two]
      norm_num
    · have e3 : (2 * Real.pi / ((3 : Nat) : ℝ)) / 2 = Real.pi / 3 := by push_cast; ring
      have e4 : (2 * Real.pi / ((4 : Nat) : ℝ)) / 2 = Real.pi / 4 := by push_cast; ring
      simp only [sizeScale, elementDiameter, tableFactor, hg, show (3 + 1 : Nat) = 4 from rfl,
        e3, e4, Real.sin_pi_div_three, Real.sin_pi_div_four]
      norm_num
      nlinarith
    · have e4 : (2 * Real.pi / ((4 : Nat) : ℝ)) / 2 = Real.pi / 4 := by push_cast; ring
      have e5 : (2 * Real.pi / ((5 : Nat) : ℝ)) / 2 = Real.pi / 5 := by push_cast; ring
      have h5 : Real.sin (Real.pi / 5) < Real.pi / 5 := Real.sin_lt (by positivity)
      have hpi := Real.pi_lt_d2
      simp only [sizeScale, elementDiameter, tableFactor, hg, show (4 + 1 : Nat) = 5 from rfl,
        e4, e5, Real.sin_pi_div_four]
      norm_num
      norm_num at hpi
      nlinarith
  · have hN1 : N ≠ 1 := by omega
    have hN2 : N + 1 ≠ 1 := by omega
    have hNr : (5 : ℝ) ≤ N := by exact_mod_cast hge
    have hmono : Real.sin (Real.pi / ((N + 1 : Nat) : ℝ)) ≤ Real.sin (Real.pi / (N : ℝ)) := by
      have hpi := Real.pi_pos
      apply Real.sin_le_sin_of_le_of_le_pi_div_two
      · have : (0 : ℝ) ≤ Real.pi / ((N + 1 : Nat) : ℝ) := by positivity
        linarith
      · rw [div_le_div_iff₀ (by linarith) (by norm_num)]
        nlinarith
      · push_cast
        apply div_le_div_of_nonneg_left hpi.le (by linarith) (by linarith)
    simp only [sizeScale, elementDiameter, hN1, hN2, if_false, half_arc, hg,
      tableFactor_of_five_le N hge, tableFactor_of_five_le (N + 1) (by omega)]
    nlinarith

/-- Witness for C9 (amended): from three to four elements, with the modelled `Lerp` and
`SmoothStep`. -/
theorem sizeScale_succ_le_witness :
    lerpModel (1 : ℝ) 1.1 (smoothStepModel 0) = 1
      ∧ sizeScale Real.sin Real.pi lerpModel smoothStepModel (3 + 1) 0
        ≤ sizeScale Real.sin Real.pi lerpModel smoothStepModel 3 0 :=
  ⟨by norm_num [lerpModel, smoothStepModel],
    sizeScale_succ_le 3 lerpModel smoothStepModel (by decide) (by decide)
      (by norm_num [lerpModel, smoothStepModel])⟩

/-! ## Claims on `WheelElement::DrawPriority` -/

/-- C10: for every `extremumIndicator` and every combination of button presses,
`DrawPriority` returns `0`, `1` or `-1`; it returns `1` only when `extremumIndicator ≠ 1`,
`-1` only when `extremumIndicator ≠ -1`, and `0` when no button is pressed. -/
theorem DrawPriority_result (extremumIndicator : Int) (upPressed downPressed : Bool) :
    (DrawPriority extremumIndicator upPressed downPressed = 0
        ∨ DrawPriority extremumIndicator upPressed downPressed = 1
        ∨ DrawPriority extremumIndicator upPressed downPressed = -1)
      ∧ (DrawPriority extremumIndicator upPressed downPressed = 1 → extremumIndicator ≠ 1)
      ∧ (DrawPriority extremumIndicator upPressed downPressed = -1 → extremumIndicator ≠ -1)
      ∧ (upPressed = false → downPressed = false →
          DrawPriority extremumIndicator upPressed downPressed = 0) := by
  unfold DrawPriority
  by_cases h1 : extremumIndicator = 1 <;> by_cases h2 : extremumIndicator = -1 <;>
    cases upPressed <;> cases downPressed <;> simp [h1, h2]

end GW2Radial
